import Mathlib

/-!
# Verification of the `bot_with_rag` retrieval pipeline

Shallow embedding of the RAG backend's core operations: document cleaning
(`rag/handle_dir_and_files/process_documents.py`), the PostgreSQL-backed
vector store (`rag/date/postgres_db.py`), the index (re)build protocol
(`src/date/vector_store.py`), the retriever retry loop
(`rag/retrieval/retriever.py`), and the query orchestrator
(`setting/setting_rag.py`).  Python exceptions are modelled with `Except`;
the PostgreSQL `documents` table is modelled as an id-ordered list of rows
plus the serial sequence counter; vector arithmetic is modelled over `ℝ`.
-/

deriving instance DecidableEq for Except

namespace BotWithRag

/-! ## Generic sorted-insertion machinery

Used to model SQL `ORDER BY` clauses (`ORDER BY id` in `get_embeddings_async`,
`ORDER BY embedding <=> query` in `find_similar_async`). -/

def insertSorted {α κ : Type} [LinearOrder κ] (key : α → κ) (a : α) : List α → List α
  | [] => [a]
  | b :: bs => if key a ≤ key b then a :: b :: bs else b :: insertSorted key a bs

def sortByKey {α κ : Type} [LinearOrder κ] (key : α → κ) : List α → List α
  | [] => []
  | a :: as => insertSorted key a (sortByKey key as)

theorem mem_insertSorted {α κ : Type} [LinearOrder κ] (key : α → κ) (a x : α) :
    ∀ l : List α, x ∈ insertSorted key a l ↔ x = a ∨ x ∈ l := by
  intro l
  induction l with
  | nil => simp [insertSorted]
  | cons b bs ih =>
      by_cases h : key a ≤ key b
      · simp [insertSorted, h]
      · simp [insertSorted, h, ih]
        tauto

theorem length_insertSorted {α κ : Type} [LinearOrder κ] (key : α → κ) (a : α) :
    ∀ l : List α, (insertSorted key a l).length = l.length + 1 := by
  intro l
  induction l with
  | nil => simp [insertSorted]
  | cons b bs ih =>
      by_cases h : key a ≤ key b
      · simp [insertSorted, h]
      · simp [insertSorted, h, ih]

theorem pairwise_insertSorted {α κ : Type} [LinearOrder κ] (key : α → κ) (a : α) :
    ∀ l : List α, l.Pairwise (fun x y => key x ≤ key y) →
      (insertSorted key a l).Pairwise (fun x y => key x ≤ key y) := by
  intro l
  induction l with
  | nil => intro _; simp [insertSorted]
  | cons b bs ih =>
      intro hp
      rcases List.pairwise_cons.mp hp with ⟨hb, hbs⟩
      by_cases h : key a ≤ key b
      · rw [show insertSorted key a (b :: bs) = a :: b :: bs by simp [insertSorted, h]]
        refine List.pairwise_cons.mpr ⟨?_, hp⟩
        intro y hy
        rcases List.mem_cons.mp hy with rfl | hy
        · exact h
        · exact le_trans h (hb y hy)
      · rw [show insertSorted key a (b :: bs) = b :: insertSorted key a bs by
          simp [insertSorted, h]]
        refine List.pairwise_cons.mpr ⟨?_, ih hbs⟩
        intro y hy
        rcases (mem_insertSorted key a y bs).mp hy with rfl | hy
        · exact le_of_lt (lt_of_not_le h)
        · exact hb y hy

theorem mem_sortByKey {α κ : Type} [LinearOrder κ] (key : α → κ) (x : α) :
    ∀ l : List α, x ∈ sortByKey key l ↔ x ∈ l := by
  intro l
  induction l with
  | nil => simp [sortByKey]
  | cons a as ih => simp [sortByKey, mem_insertSorted, ih, eq_comm]

theorem length_sortByKey {α κ : Type} [LinearOrder κ] (key : α → κ) :
    ∀ l : List α, (sortByKey key l).length = l.length := by
  intro l
  induction l with
  | nil => rfl
  | cons a as ih => simp [sortByKey, length_insertSorted, ih]

theorem pairwise_sortByKey {α κ : Type} [LinearOrder κ] (key : α → κ) :
    ∀ l : List α, (sortByKey key l).Pairwise (fun x y => key x ≤ key y) := by
  intro l
  induction l with
  | nil => simp [sortByKey]
  | cons a as ih => exact pairwise_insertSorted key a _ ih

theorem insertSorted_of_le {α κ : Type} [LinearOrder κ] (key : α → κ) (a : α) :
    ∀ l : List α, (∀ x ∈ l, key a ≤ key x) → insertSorted key a l = a :: l := by
  intro l h
  cases l with
  | nil => rfl
  | cons b bs => simp [insertSorted, h b (List.mem_cons_self b bs)]

theorem sortByKey_eq_self {α κ : Type} [LinearOrder κ] (key : α → κ) :
    ∀ l : List α, l.Pairwise (fun x y => key x ≤ key y) → sortByKey key l = l := by
  intro l
  induction l with
  | nil => intro _; rfl
  | cons a as ih =>
      intro hp
      rcases List.pairwise_cons.mp hp with ⟨ha, has⟩
      rw [sortByKey, ih has, insertSorted_of_le key a as ha]

/-! ## Python string helpers

`" ".join(s.split())` from `process_documents.py`: `str.split()` with no
arguments splits on runs of whitespace and discards empty pieces, so the
composition collapses every whitespace run to a single space and strips the
ends.  `str.strip()` removes leading and trailing whitespace.  Both are
modelled structurally over the character list of the string. -/

def pyWordsAux (acc : List Char) : List Char → List (List Char)
  | [] => if acc = [] then [] else [acc.reverse]
  | c :: cs =>
      if c.isWhitespace then
        (if acc = [] then pyWordsAux [] cs else acc.reverse :: pyWordsAux [] cs)
      else pyWordsAux (c :: acc) cs

/-- Python `s.split()`: the maximal whitespace-free runs of `s`, in order. -/
def pyWords (l : List Char) : List (List Char) := pyWordsAux [] l

/-- Python `" ".join(words)`. -/
def joinSpace : List (List Char) → List Char
  | [] => []
  | [w] => w
  | w :: ws => w ++ ' ' :: joinSpace ws

/-- Python `" ".join(s.split())`. -/
def pyNormalizeWs (s : String) : String := String.mk (joinSpace (pyWords s.toList))

/-- Python `s.strip()` on the character list of `s`. -/
def pyStripChars (l : List Char) : List Char :=
  ((l.dropWhile Char.isWhitespace).reverse.dropWhile Char.isWhitespace).reverse

/-! ## Document processing (`rag/handle_dir_and_files/process_documents.py`)

A langchain `Document` carries `page_content` and a metadata map; the
metadata value is opaque to the processing code, so it is modelled as a
`String`. -/

structure PyDoc where
  page_content : String
  metadata : String
  deriving DecidableEq

/-- `ProcessDocuments._process_single_document`: skips a document whose raw
text is empty or whitespace-only, cleans the text with `" ".join(split())`,
skips it when the cleaned text is shorter than 10 characters, and otherwise
rebuilds the document with the cleaned text.  `None` returns are modelled by
`Option.none`. -/
def process_single_document (doc : PyDoc) : Option PyDoc :=
  if doc.page_content = "" ∨ pyStripChars doc.page_content.toList = [] then none
  else
    let cleaned := pyNormalizeWs doc.page_content
    if cleaned.length < 10 then none
    else some { page_content := cleaned, metadata := doc.metadata }

/-- `ProcessDocuments.process_documents_async`: returns `[]` on empty input;
otherwise cleans each document's text with `" ".join(split())` and appends
the rebuilt document unconditionally (the loop never calls
`_process_single_document` and performs no length or emptiness check); if no
document was accumulated while `llm.is_loading_documents` holds, raises
`ValueError`.  The cleaning lambda is total, so the per-document
`except/continue` arm is unreachable. -/
def process_documents_async (is_loading : Bool) (documents : List PyDoc) :
    Except String (List PyDoc) :=
  if documents = [] then Except.ok []
  else
    let processed := documents.map
      (fun d => { page_content := pyNormalizeWs d.page_content, metadata := d.metadata })
    if processed = [] ∧ is_loading then
      Except.error "Не удалось обработать ни один документ при загрузке"
    else Except.ok processed

/-! ## The `documents` table (`rag/date/postgres_db.py`)

Schema from `_init_db`: `id SERIAL PRIMARY KEY`, `content TEXT NOT NULL`,
`metadata JSONB`, `embedding vector(768)`, `created_at`.  The only unique
constraint is the primary key on `id`.  The table is modelled as the list of
rows in insertion (id) order together with the serial sequence value that the
next insert will consume; the embedding payload type is a parameter.
Metadata is stored through `json.dumps`, hence a `String`. -/

structure Row (α : Type) where
  id : Nat
  content : String
  metadata : String
  embedding : α
  deriving DecidableEq

structure TableState (α : Type) where
  rows : List (Row α)
  nextId : Nat
  deriving DecidableEq

/-- One `VALUES` row of the `INSERT INTO documents ... ON CONFLICT DO NOTHING`
statement issued by `save_embeddings_async`.  `ON CONFLICT DO NOTHING` without
a conflict target skips the row exactly when it would violate some unique
constraint; the schema's only unique constraint is `PRIMARY KEY (id)`, and the
id is drawn from the serial sequence (which advances even for skipped rows). -/
def insert_row {α : Type} (t : TableState α) (text md : String) (emb : α) : TableState α :=
  if t.rows.any (fun r => r.id = t.nextId) then
    { t with nextId := t.nextId + 1 }
  else
    { rows := t.rows ++ [{ id := t.nextId, content := text, metadata := md, embedding := emb }],
      nextId := t.nextId + 1 }

/-- Python `range(0, n, step)` slicing loop of `save_embeddings_async`,
modelled as cutting the zipped data into batches of 1000. -/
def chunkList {α : Type} (b : Nat) : List α → List (List α)
  | [] => []
  | x :: xs =>
      if b = 0 then [x :: xs]
      else (x :: xs).take b :: chunkList b ((x :: xs).drop b)
termination_by l => l.length
decreasing_by
  simp [List.length_drop]
  omega

/-- `PostgresDB.save_embeddings_async`: zips texts, metadatas and embeddings,
cuts the data into batches of 1000 rows, and inserts each batch with
`execute_values` under `ON CONFLICT DO NOTHING`. -/
def save_embeddings_async {α : Type} (t : TableState α)
    (texts : List String) (embeddings : List α) (metadatas : List String) : TableState α :=
  let data := texts.zip (metadatas.zip embeddings)
  (chunkList 1000 data).foldl
    (fun acc batch => batch.foldl (fun s p => insert_row s p.1 p.2.1 p.2.2) acc) t

/-- `PostgresDB.get_total_documents`: `SELECT COUNT(*) FROM documents`. -/
def get_total_documents {α : Type} (t : TableState α) : Nat := t.rows.length

/-- The three result columns `(texts, embeddings, metadatas)` of a selection
of rows, in row order. -/
def tableColumns {α : Type} (sel : List (Row α)) : List String × List α × List String :=
  (sel.map (fun r => r.content), sel.map (fun r => r.embedding),
   sel.map (fun r => r.metadata))

/-- `PostgresDB.get_embeddings_async`: `SELECT content, embedding, metadata
FROM documents ORDER BY id`, appending `LIMIT {limit} OFFSET {offset}` only
when `limit` is truthy (`if limit:` — both `None` and `0` are falsy in
Python, in which case the whole table is returned and `offset` is ignored). -/
def get_embeddings_async {α : Type} (t : TableState α) (limit : Option Nat) (offset : Nat) :
    List String × List α × List String :=
  let ordered := sortByKey (fun r => r.id) t.rows
  let sel := match limit with
    | none => ordered
    | some 0 => ordered
    | some l => (ordered.drop offset).take l
  tableColumns sel

/-! ## Similarity search (`find_similar_async`)

pgvector's `<=>` operator is cosine distance `1 - cos(x, y)`; the query
computes `1 - (embedding <=> query)` as the similarity, orders ascending by
`embedding <=> query` and applies `LIMIT`.  The numeric semantics is taken
over `ℝ` (the model of the float vectors). -/

/-- Dot product of two vectors, over the common length prefix. -/
def dotList (x y : List ℝ) : ℝ :=
  ∑ i ∈ Finset.range (min x.length y.length), x.getD i 0 * y.getD i 0

/-- Cosine of the angle between two vectors (0 when either norm is zero,
by the `x / 0 = 0` convention of `ℝ`). -/
noncomputable def cosOf (x y : List ℝ) : ℝ :=
  dotList x y / (Real.sqrt (dotList x x) * Real.sqrt (dotList y y))

/-- pgvector's cosine distance `x <=> y`. -/
noncomputable def cosineDistance (x y : List ℝ) : ℝ := 1 - cosOf x y

/-- `PostgresDB.find_similar_async(query_embedding, limit)`: `SELECT content,
metadata, 1 - (embedding <=> q) AS similarity FROM documents ORDER BY
embedding <=> q LIMIT limit`. -/
noncomputable def find_similar_async (t : TableState (List ℝ)) (q : List ℝ) (limit : Nat) :
    List (String × String × ℝ) :=
  ((sortByKey (fun r => cosineDistance r.embedding q) t.rows).map
    (fun r => (r.content, r.metadata, 1 - cosineDistance r.embedding q))).take limit

/-- The store query issued by one attempt of
`Retriever.get_relevant_documents_async`: `find_similar_async` with
`limit = min(RAG_CONFIG["search_kwargs"]["k"], 10)` (retriever.py line 61),
where `k` is the configured search fan-out. -/
noncomputable def retriever_store_query (t : TableState (List ℝ)) (q : List ℝ) (k : Nat) :
    List (String × String × ℝ) :=
  find_similar_async t q (min k 10)

/-! ## Index rebuild (`src/date/vector_store.py`) -/

/-- The two failure modes of the reload-and-rebuild section of
`create_vector_store_async`: Python's `ZeroDivisionError` raised by
`(total_docs + batch_size - 1) // batch_size` when `batch_size = min(100,
total_docs)` is zero, and the `ValueError("Нет данных для создания
векторного хранилища")` ("no data to build the vector store"). -/
inductive VSErr where
  | zeroDivision
  | nothingToIndex
  deriving DecidableEq

/-- The in-memory index built by `FAISS.from_embeddings(text_embeddings=
zip(all_texts, all_embeddings), metadatas=all_metadatas)`. -/
structure FaissIndex (α : Type) where
  text_embeddings : List (String × α)
  metadatas : List String
  deriving DecidableEq

/-- The paginated full-reload loop of `create_vector_store_async` (steps
after persisting): `batch_size = min(100, total_docs)`; `num_batches =
(total_docs + batch_size - 1) // batch_size` (a `ZeroDivisionError` when
`batch_size` is zero); pages of `get_embeddings_async(limit=batch_size,
offset=i*batch_size)` are accumulated, skipping empty pages; an empty
accumulation raises the `ValueError`. -/
def reload_pages {α : Type} (t : TableState α) :
    Except VSErr (List String × List α × List String) :=
  let total := get_total_documents t
  let batch := min 100 total
  if batch = 0 then Except.error VSErr.zeroDivision
  else
    let numBatches := (total + batch - 1) / batch
    let pages := (List.range numBatches).map
      (fun i => get_embeddings_async t (some batch) (i * batch))
    let acc := pages.foldl
      (fun a p => if p.1 ≠ [] then (a.1 ++ p.1, a.2.1 ++ p.2.1, a.2.2 ++ p.2.2) else a)
      ([], [], [])
    if acc.1 = [] then Except.error VSErr.nothingToIndex else Except.ok acc

/-- `VectorStore.create_vector_store_async` from the point where the chunk
texts, their embeddings and metadatas are available (splitting and embedding
are calls into external libraries): persist via `save_embeddings_async`,
then stream the whole table back with `reload_pages`, and only on success
assign `self.llm.vectorstore` to the freshly built FAISS index; every error
is re-raised and leaves the previous `vectorstore` reference untouched.
Returns (outcome, table after persisting, `llm.vectorstore` after the call). -/
def create_vector_store_async {α : Type} (t0 : TableState α)
    (texts : List String) (embeddings : List α) (metadatas : List String)
    (prevVS : Option (FaissIndex α)) :
    Except VSErr Unit × TableState α × Option (FaissIndex α) :=
  let t1 := save_embeddings_async t0 texts embeddings metadatas
  match reload_pages t1 with
  | Except.error e => (Except.error e, t1, prevVS)
  | Except.ok (ts, es, ms) => (Except.ok (), t1, some ⟨ts.zip es, ms⟩)

/-! ## Retriever retry loop (`rag/retrieval/retriever.py`)

`get_relevant_documents_async` runs `for attempt in range(max_retries)`;
each iteration embeds the query, calls `find_similar_async` with
`limit=min(RAG_CONFIG["search_kwargs"]["k"], 10)` and converts the rows to
`Document`s; on success it returns immediately, on an exception it sleeps
1 second (a fixed, non-exponential backoff) unless this was the last
attempt, in which case the exception is re-raised.  The outcome of one whole
attempt (embedding + store query + conversion) is abstracted as an oracle
`attempts : Nat → Except String (List PyDoc)` indexed by the attempt
number. -/

structure SearchTrace where
  result : Except String (List PyDoc)
  attemptsMade : Nat
  delays : List Nat
  deriving DecidableEq

def retry_search (attempts : Nat → Except String (List PyDoc))
    (maxRetries : Nat) (i : Nat) : SearchTrace :=
  match attempts i with
  | Except.ok docs => ⟨Except.ok docs, 1, []⟩
  | Except.error e =>
      if h : i < maxRetries - 1 then
        let rest := retry_search attempts maxRetries (i + 1)
        ⟨rest.result, rest.attemptsMade + 1, 1 :: rest.delays⟩
      else ⟨Except.error e, 1, []⟩
termination_by maxRetries - i
decreasing_by omega

/-- `Retriever.get_relevant_documents_async(query, max_retries=3)`.  With
`max_retries = 0` the `for` loop body never runs and Python falls off the
end of the function, returning `None`; this is modelled by `Option.none`. -/
def get_relevant_documents_async (attempts : Nat → Except String (List PyDoc))
    (maxRetries : Nat := 3) : Option SearchTrace :=
  if maxRetries = 0 then none else some (retry_search attempts maxRetries 0)

/-! ## Text splitting (external `RecursiveCharacterTextSplitter`) -/

/-- Modelled from the spec: the chunking algorithm itself lives in the
external `langchain_text_splitters.RecursiveCharacterTextSplitter`
dependency and is not part of this repository's sources; only its
construction (`vector_store.py` line 43) and its configuration
(`config.py`, `RAG_CONFIG["text_splitter"]`) are.  Spec §4.2: chunks are cut
greedily so that each chunk holds at most `chunk_size` characters, and
"overlap inserts the trailing `chunk_overlap` characters of chunk *i* at the
start of chunk *i+1*".  The separator-priority choice of the cut points only
moves chunk boundaries, so it is abstracted into maximal-width cuts; the
overlap rule fixes each chunk to start `chunk_size - chunk_overlap`
characters after its predecessor.  The splitter requires
`chunk_overlap < chunk_size` (langchain rejects an overlap larger than the
chunk size at construction; an overlap equal to the chunk size would make no
progress), carried here as the proof argument `h`. -/
def split_text_model (cs ov : Nat) (h : ov < cs) (l : List Char) : List (List Char) :=
  if _hl : l.length ≤ cs then [l]
  else l.take cs :: split_text_model cs ov h (l.drop (cs - ov))
termination_by l.length
decreasing_by
  simp [List.length_drop]
  omega

/-- Removing each chunk's leading overlap (the first `chunk_overlap`
characters of every chunk but the first) and concatenating. -/
def remove_overlap (ov : Nat) : List (List Char) → List Char
  | [] => []
  | c :: cs => c ++ (cs.map (fun w => w.drop ov)).flatten

/-- Chunk *i+1* starts with the trailing `chunk_overlap` characters of
chunk *i*. -/
def overlap_linked (ov : Nat) (chunks : List (List Char)) : Prop :=
  chunks.Chain' (fun a b => b.take ov = a.drop (a.length - ov))

/-! ## Query orchestrator (`setting/setting_rag.py`) -/

/-- The `f"Произошла ошибка: {str(e)}"` conversion performed by the
`except` arm of `process_question`. -/
def pyErrorText (e : String) : String := "Произошла ошибка: " ++ e

/-- The guard `if not question or not question.strip():` of
`process_question`. -/
def is_blank_question (q : String) : Bool :=
  q = "" || pyStripChars q.toList = []

/-- Observable side effects of one `process_question` call: whether
`create_LLM` ran to completion and how many durable-store and
language-model calls were issued. -/
structure Calls where
  llmConstructed : Bool
  storeCalls : Nat
  modelCalls : Nat
  deriving DecidableEq

/-- `process_question(question)`: raises `ValueError` on a blank question
before touching anything else; otherwise lazily constructs the global `LLM`
via `create_LLM` when it is still `None`, then awaits `LLM.query_async`.
The whole body sits in a `try/except` whose `except` arm returns
`f"Произошла ошибка: {e}"` instead of re-raising.  `create_LLM`'s outcome
(an oracle, already wrapped in its own `RuntimeError` message) and
`query_async`'s outcome together with the store/model call counts it incurs
are parameters; a blank question or a failed construction issues no store or
model call. -/
def process_question (q : String) (llmInit : Bool) (createRes : Except String Unit)
    (queryRes : Except String String) (queryStoreCalls queryModelCalls : Nat) :
    String × Calls :=
  if is_blank_question q then
    (pyErrorText "Вопрос не может быть пустым", ⟨false, 0, 0⟩)
  else
    match (if llmInit then Except.ok () else createRes) with
    | Except.error e => (pyErrorText e, ⟨false, 0, 0⟩)
    | Except.ok _ =>
        match queryRes with
        | Except.ok r => (r, ⟨!llmInit, queryStoreCalls, queryModelCalls⟩)
        | Except.error e => (pyErrorText e, ⟨!llmInit, queryStoreCalls, queryModelCalls⟩)

/-- `query_llm(question)`: runs `process_question` under one more
`try/except` that would also convert an exception to `f"Произошла ошибка:
{e}"`; since `process_question` never raises, that arm only guards the
`asyncio.run` plumbing and the result is passed through verbatim. -/
def query_llm (q : String) (llmInit : Bool) (createRes : Except String Unit)
    (queryRes : Except String String) (queryStoreCalls queryModelCalls : Nat) : String :=
  (process_question q llmInit createRes queryRes queryStoreCalls queryModelCalls).1

/-- Number of rows of the table holding exactly the given
(content, metadata, embedding) triple. -/
def count_triple {α : Type} [DecidableEq α] (t : TableState α)
    (text md : String) (emb : α) : Nat :=
  t.rows.countP (fun r => decide (r.content = text ∧ r.metadata = md ∧ r.embedding = emb))

/-! ## Claims -/

/-- **C1.** The claim states that every document returned by the processing
step is whitespace-normalized, non-empty and at least 10 characters long,
with shorter documents dropped.  Evaluating the code at the failing input:
`process_documents_async` keeps a document whose cleaned content is the
2-character string `"hi"` and even a document with empty content, while the
dead helper `_process_single_document` — the filter the class docstring
advertises, which the processing loop never calls — would drop it. -/
theorem c1_short_documents_survive_processing :
    process_documents_async true [⟨"hi", "src"⟩, ⟨"", "src"⟩] =
      Except.ok [⟨"hi", "src"⟩, ⟨"", "src"⟩] ∧
    ("hi" : String).length < 10 ∧
    process_single_document ⟨"hi", "src"⟩ = none := by
  decide

/-- **C3.** The claim states that a run of `create_vector_store` whose
persistence succeeds but whose reload yields zero rows raises a fatal
"nothing to index" error and installs no empty index.  Evaluating the code
at the failing input (empty chunk list over an empty table): persistence
succeeds vacuously, the reload sees `total_docs = 0`, so `batch_size =
min(100, 0) = 0` and `(total_docs + batch_size - 1) // batch_size` raises
`ZeroDivisionError` — not the intended `ValueError` — though indeed no index
is installed: the previous `llm.vectorstore` reference survives. -/
theorem c3_empty_reload_raises_zero_division :
    create_vector_store_async (α := List Int) ⟨[], 1⟩ [] [] []
        (some ⟨[("old", [1])], ["m"]⟩) =
      (Except.error VSErr.zeroDivision, ⟨[], 1⟩, some ⟨[("old", [1])], ["m"]⟩) ∧
    VSErr.zeroDivision ≠ VSErr.nothingToIndex := by
  refine ⟨?_, by decide⟩
  simp [create_vector_store_async, save_embeddings_async, chunkList, reload_pages,
    get_total_documents]

theorem save_embeddings_singleton {α : Type} (t : TableState α)
    (text md : String) (emb : α) :
    save_embeddings_async t [text] [emb] [md] = insert_row t text md emb := by
  simp [save_embeddings_async, chunkList, List.take_of_length_le, List.drop_eq_nil_of_le]

theorem insert_row_fresh {α : Type} (t : TableState α)
    (hinv : ∀ r ∈ t.rows, r.id < t.nextId) (text md : String) (emb : α) :
    insert_row t text md emb =
      ⟨t.rows ++ [⟨t.nextId, text, md, emb⟩], t.nextId + 1⟩ := by
  have hany : t.rows.any (fun r => r.id = t.nextId) = false := by
    simp only [List.any_eq_false, decide_eq_true_eq]
    intro r hr
    exact Nat.ne_of_lt (hinv r hr)
  simp [insert_row, hany]

/-- **C2 (counterexample).** The claim states that saving the same
(content, metadata, embedding) triple twice leaves exactly one row for it.
On an empty table, two `save_embeddings` calls with the identical triple
leave two rows: the schema's only unique constraint is the serial primary
key, so `ON CONFLICT DO NOTHING` never fires. -/
theorem c2_duplicate_insert_leaves_two_rows :
    count_triple
      (save_embeddings_async
        (save_embeddings_async (⟨[], 1⟩ : TableState (List Int)) ["x"] [[1, 2]] ["md"])
        ["x"] [[1, 2]] ["md"])
      "x" "md" [1, 2] = 2 := by
  simp [save_embeddings_singleton, insert_row_fresh, count_triple]

/-- **C2 (amended).** Calling `save_embeddings` twice with the same
(content, metadata, embedding) triple leaves **two** rows holding that
triple (one per call), not one: the `documents` table declares no unique
constraint over the triple, its serial primary key never collides, and so
the `ON CONFLICT DO NOTHING` clause never fires.  It remains true that the
insert path never overwrites an existing row: every prior row survives
unchanged and new rows are only appended. -/
theorem c2_repeated_save_appends_two_rows {α : Type} [DecidableEq α]
    (t : TableState α) (text md : String) (emb : α)
    (hinv : ∀ r ∈ t.rows, r.id < t.nextId) :
    save_embeddings_async t [text] [emb] [md] =
      ⟨t.rows ++ [⟨t.nextId, text, md, emb⟩], t.nextId + 1⟩ ∧
    save_embeddings_async (save_embeddings_async t [text] [emb] [md]) [text] [emb] [md] =
      ⟨t.rows ++ [⟨t.nextId, text, md, emb⟩, ⟨t.nextId + 1, text, md, emb⟩],
        t.nextId + 2⟩ ∧
    count_triple
        (save_embeddings_async (save_embeddings_async t [text] [emb] [md]) [text] [emb] [md])
        text md emb =
      count_triple t text md emb + 2 := by
  have h1 : save_embeddings_async t [text] [emb] [md] =
      ⟨t.rows ++ [⟨t.nextId, text, md, emb⟩], t.nextId + 1⟩ := by
    rw [save_embeddings_singleton, insert_row_fresh _ hinv]
  have hinv1 : ∀ r ∈ t.rows ++ [⟨t.nextId, text, md, emb⟩],
      r.id < t.nextId + 1 := by
    intro r hr
    rcases List.mem_append.mp hr with hr | hr
    · exact Nat.lt_succ_of_lt (hinv r hr)
    · simp at hr
      simp [hr]
  have h2 : save_embeddings_async (save_embeddings_async t [text] [emb] [md]) [text] [emb] [md] =
      ⟨t.rows ++ [⟨t.nextId, text, md, emb⟩, ⟨t.nextId + 1, text, md, emb⟩],
        t.nextId + 2⟩ := by
    rw [h1, save_embeddings_singleton, insert_row_fresh _ hinv1]
    simp
  refine ⟨h1, h2, ?_⟩
  rw [h2]
  simp [count_triple, List.countP_append]

/-- Witness for C2 (amended): both saves on the empty table, evaluated. -/
theorem c2_repeated_save_appends_two_rows_witness :
    save_embeddings_async (⟨[], 1⟩ : TableState (List Int)) ["x"] [[1, 2]] ["md"] =
      ⟨[⟨1, "x", "md", [1, 2]⟩], 2⟩ ∧
    save_embeddings_async
        (save_embeddings_async (⟨[], 1⟩ : TableState (List Int)) ["x"] [[1, 2]] ["md"])
        ["x"] [[1, 2]] ["md"] =
      ⟨[⟨1, "x", "md", [1, 2]⟩, ⟨2, "x", "md", [1, 2]⟩], 3⟩ ∧
    count_triple
        (save_embeddings_async
          (save_embeddings_async (⟨[], 1⟩ : TableState (List Int)) ["x"] [[1, 2]] ["md"])
          ["x"] [[1, 2]] ["md"])
        "x" "md" [1, 2] =
      count_triple (⟨[], 1⟩ : TableState (List Int)) "x" "md" [1, 2] + 2 :=
  c2_repeated_save_appends_two_rows ⟨[], 1⟩ "x" "md" [1, 2] (by simp)

/-- **C10.** `get_embeddings_async` treats `limit = 0` like `limit = None`:
whenever `limit` is falsy the `SELECT` carries no `LIMIT/OFFSET` clause, so
the whole id-ordered table is returned and `offset` is ignored — a caller
passing `limit = 0` receives all rows, not zero rows. -/
theorem c10_limit_zero_returns_all_rows {α : Type} (t : TableState α) (off off' : Nat) :
    get_embeddings_async t (some 0) off = tableColumns (sortByKey (fun r => r.id) t.rows) ∧
    get_embeddings_async t (some 0) off = get_embeddings_async t none off' := by
  exact ⟨rfl, rfl⟩

/-- **C7.** A blank (empty or whitespace-only) question is rejected by the
local validation guard of `process_question` before the LLM client is
constructed and before any store or model call: the result is the error
text for the `ValueError`, `create_LLM` never runs, and both call counts
are zero — regardless of the lazily initialized state and of what the
store/model oracles would have returned. -/
theorem c7_blank_question_makes_no_calls (q : String) (llmInit : Bool)
    (createRes : Except String Unit) (queryRes : Except String String)
    (sc mc : Nat) (hq : is_blank_question q = true) :
    process_question q llmInit createRes queryRes sc mc =
      (pyErrorText "Вопрос не может быть пустым",
        { llmConstructed := false, storeCalls := 0, modelCalls := 0 }) := by
  simp [process_question, hq]

/-- Witness for C7 at the whitespace-only question `"  \n\t "`. -/
theorem c7_blank_question_makes_no_calls_witness :
    process_question "  \n\t " false (Except.ok ()) (Except.ok "ответ") 1 1 =
      (pyErrorText "Вопрос не может быть пустым",
        { llmConstructed := false, storeCalls := 0, modelCalls := 0 }) :=
  c7_blank_question_makes_no_calls "  \n\t " false (Except.ok ()) (Except.ok "ответ") 1 1
    (by decide)

/-- **C5.** `query_llm` always returns a string: in each of the four
exhaustive situations — success, blank question, failed lazy construction
of the LLM client, failed retrieval/model call — the boundary converts the
failure into the `"Произошла ошибка: ..."` error text instead of letting
the exception propagate, and returns the model response verbatim on
success. -/
theorem c5_query_llm_never_raises (q : String) (llmInit : Bool)
    (createRes : Except String Unit) (queryRes : Except String String) (sc mc : Nat) :
    (is_blank_question q = true →
      query_llm q llmInit createRes queryRes sc mc =
        pyErrorText "Вопрос не может быть пустым") ∧
    (∀ e, is_blank_question q = false → llmInit = false →
      createRes = Except.error e →
      query_llm q llmInit createRes queryRes sc mc = pyErrorText e) ∧
    (∀ r, is_blank_question q = false →
      (llmInit = true ∨ createRes = Except.ok ()) → queryRes = Except.ok r →
      query_llm q llmInit createRes queryRes sc mc = r) ∧
    (∀ e, is_blank_question q = false →
      (llmInit = true ∨ createRes = Except.ok ()) → queryRes = Except.error e →
      query_llm q llmInit createRes queryRes sc mc = pyErrorText e) := by
  refine ⟨?_, ?_, ?_, ?_⟩
  · intro hq
    simp [query_llm, process_question, hq]
  · intro e hq hinit hc
    simp [query_llm, process_question, hq, hinit, hc]
  · intro r hq hinit hr
    rcases hinit with hinit | hinit <;>
      simp [query_llm, process_question, hq, hinit, hr]
  · intro e hq hinit he
    rcases hinit with hinit | hinit <;>
      simp [query_llm, process_question, hq, hinit, he]

/-- Witness for C5: all four situations evaluated at concrete inputs. -/
theorem c5_query_llm_never_raises_witness :
    query_llm "" true (Except.ok ()) (Except.ok "ответ") 0 0 =
      pyErrorText "Вопрос не может быть пустым" ∧
    query_llm "вопрос" false (Except.error "нет ключа") (Except.ok "ответ") 0 0 =
      pyErrorText "нет ключа" ∧
    query_llm "вопрос" true (Except.ok ()) (Except.ok "ответ") 1 1 = "ответ" ∧
    query_llm "вопрос" true (Except.ok ()) (Except.error "таймаут") 1 0 =
      pyErrorText "таймаут" :=
  ⟨(c5_query_llm_never_raises "" true (Except.ok ()) (Except.ok "ответ") 0 0).1
      (by decide),
   (c5_query_llm_never_raises "вопрос" false (Except.error "нет ключа")
      (Except.ok "ответ") 0 0).2.1 "нет ключа" (by decide) rfl rfl,
   (c5_query_llm_never_raises "вопрос" true (Except.ok ()) (Except.ok "ответ") 1 1).2.2.1
      "ответ" (by decide) (Or.inl rfl) rfl,
   (c5_query_llm_never_raises "вопрос" true (Except.ok ()) (Except.error "таймаут") 1 0).2.2.2
      "таймаут" (by decide) (Or.inl rfl) rfl⟩

/-- **C4.** Bounded retry in search, at the default `max_retries = 3`: no
run makes more than 3 attempts and every inserted backoff delay is the
fixed 1 second (never exponential); a first-attempt success returns
immediately after 1 attempt with no delay; two failures followed by a
success return that success using exactly 3 attempts; three consecutive
failures propagate the last error after exactly 3 attempts — there is
never a 4th. -/
theorem c4_bounded_retry (attempts : Nat → Except String (List PyDoc)) :
    (∀ tr, get_relevant_documents_async attempts 3 = some tr →
      tr.attemptsMade ≤ 3 ∧ ∀ d ∈ tr.delays, d = 1) ∧
    (∀ docs, attempts 0 = Except.ok docs →
      get_relevant_documents_async attempts 3 = some ⟨Except.ok docs, 1, []⟩) ∧
    (∀ e0 e1 docs, attempts 0 = Except.error e0 → attempts 1 = Except.error e1 →
      attempts 2 = Except.ok docs →
      get_relevant_documents_async attempts 3 = some ⟨Except.ok docs, 3, [1, 1]⟩) ∧
    (∀ e0 e1 e2, attempts 0 = Except.error e0 → attempts 1 = Except.error e1 →
      attempts 2 = Except.error e2 →
      get_relevant_documents_async attempts 3 = some ⟨Except.error e2, 3, [1, 1]⟩) := by
  refine ⟨?_, ?_, ?_, ?_⟩
  · intro tr h
    have htr : tr = retry_search attempts 3 0 := by
      simpa [get_relevant_documents_async] using h.symm
    subst htr
    cases h0 : attempts 0 with
    | ok docs => simp [retry_search, h0]
    | error e0 =>
        cases h1 : attempts 1 with
        | ok docs => simp [retry_search, h0, h1]
        | error e1 =>
            cases h2 : attempts 2 with
            | ok docs => simp [retry_search, h0, h1, h2]
            | error e2 => simp [retry_search, h0, h1, h2]
  · intro docs h0
    simp [get_relevant_documents_async, retry_search, h0]
  · intro e0 e1 docs h0 h1 h2
    simp [get_relevant_documents_async, retry_search, h0, h1, h2]
  · intro e0 e1 e2 h0 h1 h2
    simp [get_relevant_documents_async, retry_search, h0, h1, h2]

/-- Witness for C4: a first-try success, a third-try success and a total
failure, each with a concrete attempt oracle. -/
theorem c4_bounded_retry_witness :
    get_relevant_documents_async (fun _ => Except.ok []) 3 =
      some ⟨Except.ok [], 1, []⟩ ∧
    get_relevant_documents_async
        (fun i => if i = 2 then Except.ok [⟨"d", "m"⟩] else Except.error "обрыв") 3 =
      some ⟨Except.ok [⟨"d", "m"⟩], 3, [1, 1]⟩ ∧
    get_relevant_documents_async (fun _ => Except.error "база недоступна") 3 =
      some ⟨Except.error "база недоступна", 3, [1, 1]⟩ ∧
    (⟨Except.error "база недоступна", 3, [1, 1]⟩ : SearchTrace).attemptsMade ≤ 3 :=
  ⟨(c4_bounded_retry (fun _ => Except.ok [])).2.1 [] rfl,
   (c4_bounded_retry _).2.2.1 "обрыв" "обрыв" [⟨"d", "m"⟩] rfl rfl rfl,
   (c4_bounded_retry (fun _ => Except.error "база недоступна")).2.2.2
      "база недоступна" "база недоступна" "база недоступна" rfl rfl rfl,
   ((c4_bounded_retry (fun _ => Except.error "база недоступна")).1
      ⟨Except.error "база недоступна", 3, [1, 1]⟩
      ((c4_bounded_retry (fun _ => Except.error "база недоступна")).2.2.2
        "база недоступна" "база недоступна" "база недоступна" rfl rfl rfl)).1⟩

/-! ## Pagination lemmas for C8 -/

theorem flatten_pages {β : Type} (b : Nat) (hb : 0 < b) :
    ∀ (n : Nat) (xs : List β), xs.length ≤ n →
      ((List.range ((xs.length + b - 1) / b)).map
        (fun i => (xs.drop (i * b)).take b)).flatten = xs := by
  intro n
  induction n with
  | zero =>
      intro xs h
      have hxs : xs = [] := List.eq_nil_of_length_eq_zero (Nat.le_zero.mp h)
      subst hxs
      have h0 : (([] : List β).length + b - 1) / b = 0 := Nat.div_eq_of_lt (by simp; omega)
      simp [h0]
  | succ n ih =>
      intro xs h
      rcases hxs : xs with _ | ⟨x, rest⟩
      · have h0 : (([] : List β).length + b - 1) / b = 0 := Nat.div_eq_of_lt (by simp; omega)
        simp [h0]
      · have hmpos : 0 < xs.length := by simp [hxs]
        have hlen : (xs.drop b).length = xs.length - b := by simp
        have hcount : (xs.length + b - 1) / b = ((xs.drop b).length + b - 1) / b + 1 := by
          rw [hlen]
          by_cases hmb : xs.length ≤ b
          · have h1 : (xs.length + b - 1) / b = 1 :=
              Nat.div_eq_of_lt_le (by omega) (by omega)
            have h2 : (xs.length - b + b - 1) / b = 0 := Nat.div_eq_of_lt (by omega)
            omega
          · have hsplit : xs.length + b - 1 = (xs.length - b + b - 1) + b := by omega
            rw [hsplit, Nat.add_div_right _ hb]
        rw [← hxs, hcount, List.range_succ_eq_map]
        simp only [List.map_cons, List.map_map, List.flatten_cons, Nat.zero_mul,
          List.drop_zero]
        have hfun : ((List.range (((xs.drop b).length + b - 1) / b)).map
            ((fun i => (xs.drop (i * b)).take b) ∘ Nat.succ)) =
            (List.range (((xs.drop b).length + b - 1) / b)).map
              (fun i => ((xs.drop b).drop (i * b)).take b) := by
          refine List.map_congr_left ?_
          intro i _
          simp only [Function.comp]
          rw [List.drop_drop]
          congr 2
          rw [Nat.succ_mul, Nat.add_comm]
        rw [hfun, ih (xs.drop b) (by rw [hlen]; omega)]
        exact List.take_append_drop b xs

theorem tableColumns_append {α : Type} (a c : List (Row α)) :
    tableColumns (a ++ c) =
      ((tableColumns a).1 ++ (tableColumns c).1,
       (tableColumns a).2.1 ++ (tableColumns c).2.1,
       (tableColumns a).2.2 ++ (tableColumns c).2.2) := by
  simp [tableColumns]

theorem fold_pages_tableColumns {α : Type} (rps : List (List (Row α))) :
    ∀ acc : List (Row α),
      (rps.map tableColumns).foldl
        (fun a p => if p.1 ≠ [] then (a.1 ++ p.1, a.2.1 ++ p.2.1, a.2.2 ++ p.2.2) else a)
        (tableColumns acc) = tableColumns (acc ++ rps.flatten) := by
  induction rps with
  | nil => intro acc; simp
  | cons p ps ih =>
      intro acc
      have hstep : (fun a q =>
            if q.1 ≠ [] then (a.1 ++ q.1, a.2.1 ++ q.2.1, a.2.2 ++ q.2.2) else a)
          (tableColumns acc) (tableColumns p) = tableColumns (acc ++ p) := by
        by_cases hp : p = []
        · subst hp
          simp [tableColumns]
        · have h1 : (tableColumns p).1 ≠ [] := by
            simpa [tableColumns] using hp
          simp only [if_pos h1, tableColumns_append]
      simp only [List.map_cons, List.foldl_cons, hstep, List.flatten_cons]
      rw [ih (acc ++ p), List.append_assoc]

theorem get_embeddings_pos {α : Type} (t : TableState α) (l off : Nat) (hl : 0 < l) :
    get_embeddings_async t (some l) off =
      tableColumns (((sortByKey (fun r => r.id) t.rows).drop off).take l) := by
  obtain ⟨m, rfl⟩ : ∃ m, l = m + 1 := ⟨l - 1, by omega⟩
  rfl

/-- **C8.** Full paginated reload.  For an id-sorted non-empty corpus:
`get_embeddings` with a positive limit and an offset returns exactly the
id-ordered rows `[offset, offset + limit)`, and the reload loop of
`create_vector_store` — pages of size `min(100, total)` at offsets `0,
batch, 2*batch, ...` — accumulates the columns of *every* row of the
`documents` table (rows from prior ingestions included, since the pages
walk the whole table, not just the freshly inserted suffix) exactly once. -/
theorem c8_paginated_reload_is_exhaustive {α : Type} (t : TableState α)
    (hsorted : t.rows.Pairwise (fun a b => a.id < b.id)) (hne : t.rows ≠ []) :
    (∀ l off, 0 < l →
      get_embeddings_async t (some l) off = tableColumns ((t.rows.drop off).take l)) ∧
    reload_pages t = Except.ok (tableColumns t.rows) := by
  have hsort_eq : sortByKey (fun r => r.id) t.rows = t.rows :=
    sortByKey_eq_self _ _ (hsorted.imp le_of_lt)
  have hget : ∀ l off, 0 < l →
      get_embeddings_async t (some l) off = tableColumns ((t.rows.drop off).take l) := by
    intro l off hl
    rw [get_embeddings_pos t l off hl, hsort_eq]
  refine ⟨hget, ?_⟩
  have htotal : 0 < get_total_documents t := by
    simpa [get_total_documents, List.length_pos] using hne
  have hb : 0 < min 100 (get_total_documents t) := by omega
  have hbne : ¬ min 100 (get_total_documents t) = 0 := by omega
  rw [reload_pages, if_neg hbne]
  simp only []
  rw [show get_total_documents t = t.rows.length from rfl] at hb ⊢
  generalize hbdef : min 100 t.rows.length = b at hb ⊢
  have hpages : (List.range ((t.rows.length + b - 1) / b)).map
      (fun i => get_embeddings_async t (some b) (i * b)) =
      ((List.range ((t.rows.length + b - 1) / b)).map
        (fun i => (t.rows.drop (i * b)).take b)).map tableColumns := by
    rw [List.map_map]
    refine List.map_congr_left ?_
    intro i _
    simp only [Function.comp]
    exact hget b (i * b) hb
  rw [hpages]
  have hfold := fold_pages_tableColumns
    ((List.range ((t.rows.length + b - 1) / b)).map (fun i => (t.rows.drop (i * b)).take b))
    []
  rw [show tableColumns ([] : List (Row α)) = ([], [], []) from rfl] at hfold
  simp only [List.nil_append] at hfold
  have hflat := flatten_pages b hb t.rows.length t.rows (le_refl _)
  rw [hfold, hflat]
  have hne1 : ¬ (tableColumns t.rows).1 = [] := by
    simpa [tableColumns] using hne
  rw [if_neg hne1]

/-- Witness for C8: a three-row table read back in pages of size 3, and a
positive-limit page at offset 1. -/
theorem c8_paginated_reload_is_exhaustive_witness :
    (get_embeddings_async
        (⟨[⟨1, "a", "m1", [1]⟩, ⟨2, "b", "m2", [2]⟩, ⟨3, "c", "m3", [3]⟩], 4⟩ :
          TableState (List Int)) (some 2) 1 =
      tableColumns (((⟨[⟨1, "a", "m1", [1]⟩, ⟨2, "b", "m2", [2]⟩, ⟨3, "c", "m3", [3]⟩], 4⟩ :
          TableState (List Int)).rows.drop 1).take 2)) ∧
    reload_pages
        (⟨[⟨1, "a", "m1", [1]⟩, ⟨2, "b", "m2", [2]⟩, ⟨3, "c", "m3", [3]⟩], 4⟩ :
          TableState (List Int)) =
      Except.ok (tableColumns
        (⟨[⟨1, "a", "m1", [1]⟩, ⟨2, "b", "m2", [2]⟩, ⟨3, "c", "m3", [3]⟩], 4⟩ :
          TableState (List Int)).rows) :=
  ⟨(c8_paginated_reload_is_exhaustive _ (by decide) (by decide)).1 2 1 (by decide),
   (c8_paginated_reload_is_exhaustive _ (by decide) (by decide)).2⟩

/-! ## Splitter lemmas for C9 -/

theorem split_text_model_head (cs ov : Nat) (h : ov < cs) (l : List Char) :
    ∃ tl, split_text_model cs ov h l = l.take cs :: tl := by
  rw [split_text_model]
  by_cases hl : l.length ≤ cs
  · exact ⟨[], by simp [hl, List.take_of_length_le hl]⟩
  · refine ⟨split_text_model cs ov h (l.drop (cs - ov)), ?_⟩
    rw [dif_neg hl]

theorem overlap_head_reassemble (ov cs : Nat) (L : List Char)
    (hov : ov ≤ cs) (hovL : ov ≤ L.length) :
    (L.take cs).drop ov ++ L.drop ((L.take cs).length) = L.drop ov := by
  have hm : (L.take cs).length = min cs L.length := List.length_take cs L
  have htake : L.take cs = L.take (min cs L.length) := by
    rw [List.take_eq_take]
    simp
  have hov_le : ov ≤ (L.take (min cs L.length)).length := by
    rw [List.length_take]
    omega
  rw [hm, htake, ← List.drop_append_of_le_length hov_le, List.take_append_drop]

theorem split_roundtrip_aux (cs ov : Nat) (h : ov < cs) :
    ∀ (n : Nat) (l : List Char), l.length ≤ n →
      remove_overlap ov (split_text_model cs ov h l) = l := by
  intro n
  induction n with
  | zero =>
      intro l hl
      have hnil : l = [] := List.eq_nil_of_length_eq_zero (Nat.le_zero.mp hl)
      subst hnil
      rw [split_text_model]
      simp [remove_overlap]
  | succ n ih =>
      intro l hl
      rw [split_text_model]
      by_cases hc : l.length ≤ cs
      · simp [hc, remove_overlap]
      · rw [dif_neg hc]
        have hlen' : (l.drop (cs - ov)).length = l.length - (cs - ov) := by simp
        obtain ⟨tl, htl⟩ := split_text_model_head cs ov h (l.drop (cs - ov))
        have hrec : remove_overlap ov (split_text_model cs ov h (l.drop (cs - ov))) =
            l.drop (cs - ov) := ih (l.drop (cs - ov)) (by rw [hlen']; omega)
        rw [htl, remove_overlap] at hrec
        rw [remove_overlap, htl]
        have hflat : (tl.map (fun w => w.drop ov)).flatten =
            (l.drop (cs - ov)).drop (((l.drop (cs - ov)).take cs).length) := by
          have hdrop := congrArg (List.drop (((l.drop (cs - ov)).take cs).length)) hrec
          rwa [List.drop_left] at hdrop
        simp only [List.map_cons, List.flatten_cons, hflat]
        have hjoin := overlap_head_reassemble ov cs (l.drop (cs - ov))
          (le_of_lt h) (by rw [hlen']; omega)
        rw [hjoin, List.drop_drop]
        have hcseq : cs - ov + ov = cs := by omega
        rw [hcseq, List.take_append_drop]

theorem split_chain_aux (cs ov : Nat) (h : ov < cs) :
    ∀ (n : Nat) (l : List Char), l.length ≤ n →
      overlap_linked ov (split_text_model cs ov h l) := by
  intro n
  induction n with
  | zero =>
      intro l hl
      have hnil : l = [] := List.eq_nil_of_length_eq_zero (Nat.le_zero.mp hl)
      subst hnil
      rw [split_text_model]
      simp [overlap_linked]
  | succ n ih =>
      intro l hl
      rw [split_text_model]
      by_cases hc : l.length ≤ cs
      · simp [hc, overlap_linked]
      · rw [dif_neg hc]
        have hlen' : (l.drop (cs - ov)).length = l.length - (cs - ov) := by simp
        obtain ⟨tl, htl⟩ := split_text_model_head cs ov h (l.drop (cs - ov))
        have hrec : overlap_linked ov (split_text_model cs ov h (l.drop (cs - ov))) :=
          ih (l.drop (cs - ov)) (by rw [hlen']; omega)
        rw [htl] at hrec
        rw [overlap_linked, htl, List.chain'_cons]
        refine ⟨?_, hrec⟩
        -- the next chunk's first `ov` characters are the head chunk's last `ov`
        have hlentake : (l.take cs).length = cs := by
          rw [List.length_take]
          omega
        rw [hlentake, List.drop_take, List.take_take]
        have h1 : cs - (cs - ov) = ov := by omega
        have h2 : min ov cs = ov := by omega
        rw [h1, h2]

/-- **C9.** Chunking round-trip, modelled from the spec (the splitter
implementation is the external langchain `RecursiveCharacterTextSplitter`;
see `split_text_model`).  For every `chunk_size`, `chunk_overlap` with
`chunk_overlap < chunk_size` and every cleaned text: each emitted chunk
after the first starts with the trailing `chunk_overlap` characters of its
predecessor, and concatenating the chunks with each chunk's leading overlap
removed reconstructs the original cleaned text exactly. -/
theorem c9_chunking_roundtrip (cs ov : Nat) (h : ov < cs) (l : List Char) :
    remove_overlap ov (split_text_model cs ov h l) = l ∧
    overlap_linked ov (split_text_model cs ov h l) :=
  ⟨split_roundtrip_aux cs ov h l.length l (le_refl _),
   split_chain_aux cs ov h l.length l (le_refl _)⟩

/-- Witness for C9 at `chunk_size = 3`, `chunk_overlap = 1`, text
`"abcde"`: chunks are `"abc"`, `"cde"`. -/
theorem c9_chunking_roundtrip_witness :
    remove_overlap 1 (split_text_model 3 1 (by decide) "abcde".toList) = "abcde".toList ∧
    overlap_linked 1 (split_text_model 3 1 (by decide) "abcde".toList) :=
  c9_chunking_roundtrip 3 1 (by decide) "abcde".toList

/-! ## Cosine-similarity lemmas for C6 -/

theorem dotList_self_eq_sq_sum (z : List ℝ) :
    dotList z z = ∑ i ∈ Finset.range z.length, z.getD i 0 ^ 2 := by
  unfold dotList
  rw [min_self]
  refine Finset.sum_congr rfl ?_
  intro i _
  ring

theorem dotList_self_nonneg (z : List ℝ) : 0 ≤ dotList z z := by
  rw [dotList_self_eq_sq_sum]
  refine Finset.sum_nonneg ?_
  intro i _
  positivity

theorem sqrt_sq_sum_le (m : Nat) (z : List ℝ) (hz : m ≤ z.length) :
    Real.sqrt (∑ i ∈ Finset.range m, z.getD i 0 ^ 2) ≤ Real.sqrt (dotList z z) := by
  rw [dotList_self_eq_sq_sum]
  refine Real.sqrt_le_sqrt ?_
  refine Finset.sum_le_sum_of_subset_of_nonneg (Finset.range_subset.mpr hz) ?_
  intro i _ _
  positivity

theorem abs_dotList_le (x y : List ℝ) :
    |dotList x y| ≤ Real.sqrt (dotList x x) * Real.sqrt (dotList y y) := by
  have hx := sqrt_sq_sum_le (min x.length y.length) x (min_le_left _ _)
  have hy := sqrt_sq_sum_le (min x.length y.length) y (min_le_right _ _)
  have hsx : (0 : ℝ) ≤ Real.sqrt (∑ i ∈ Finset.range (min x.length y.length),
      x.getD i 0 ^ 2) := Real.sqrt_nonneg _
  have hsy : (0 : ℝ) ≤ Real.sqrt (∑ i ∈ Finset.range (min x.length y.length),
      y.getD i 0 ^ 2) := Real.sqrt_nonneg _
  have hup : dotList x y ≤ Real.sqrt (dotList x x) * Real.sqrt (dotList y y) := by
    calc dotList x y
        ≤ Real.sqrt (∑ i ∈ Finset.range (min x.length y.length), x.getD i 0 ^ 2) *
          Real.sqrt (∑ i ∈ Finset.range (min x.length y.length), y.getD i 0 ^ 2) :=
          Real.sum_mul_le_sqrt_mul_sqrt _ _ _
      _ ≤ Real.sqrt (dotList x x) * Real.sqrt (dotList y y) :=
          mul_le_mul hx hy hsy (Real.sqrt_nonneg _)
  have hlow : -(dotList x y) ≤ Real.sqrt (dotList x x) * Real.sqrt (dotList y y) := by
    have hneg := Real.sum_mul_le_sqrt_mul_sqrt (Finset.range (min x.length y.length))
      (fun i => -(x.getD i 0)) (fun i => y.getD i 0)
    simp only [neg_mul, Finset.sum_neg_distrib, neg_sq] at hneg
    calc -(dotList x y)
        ≤ Real.sqrt (∑ i ∈ Finset.range (min x.length y.length), x.getD i 0 ^ 2) *
          Real.sqrt (∑ i ∈ Finset.range (min x.length y.length), y.getD i 0 ^ 2) := hneg
      _ ≤ Real.sqrt (dotList x x) * Real.sqrt (dotList y y) :=
          mul_le_mul hx hy hsy (Real.sqrt_nonneg _)
  exact abs_le.mpr ⟨by linarith, hup⟩

theorem cosOf_bounds (x y : List ℝ) : -1 ≤ cosOf x y ∧ cosOf x y ≤ 1 := by
  unfold cosOf
  by_cases hz : Real.sqrt (dotList x x) * Real.sqrt (dotList y y) = 0
  · rw [hz, div_zero]
    norm_num
  · have hnn : 0 ≤ Real.sqrt (dotList x x) * Real.sqrt (dotList y y) :=
      mul_nonneg (Real.sqrt_nonneg _) (Real.sqrt_nonneg _)
    have hpos : 0 < Real.sqrt (dotList x x) * Real.sqrt (dotList y y) :=
      lt_of_le_of_ne hnn (Ne.symm hz)
    have habs : |dotList x y / (Real.sqrt (dotList x x) * Real.sqrt (dotList y y))| ≤ 1 := by
      rw [abs_div, abs_of_pos hpos]
      exact (div_le_one hpos).mpr (abs_dotList_le x y)
    exact abs_le.mp habs

/-- **C6.** Search fan-out cap and ranking: the retriever asks the durable
store for `min(k, 10)` nearest neighbours (never more than 10);
`find_similar` returns at most that many results, ordered by descending
similarity; every returned result is a row of the `documents` table whose
reported similarity equals `1 - cosine_distance(stored embedding, query
embedding)` and lies within `[-1, 1]`. -/
theorem c6_fanout_cap_and_ranking (t : TableState (List ℝ)) (q : List ℝ) (k : Nat) :
    retriever_store_query t q k = find_similar_async t q (min k 10) ∧
    min k 10 ≤ 10 ∧
    (retriever_store_query t q k).length ≤ min k 10 ∧
    (retriever_store_query t q k).Pairwise (fun a b => b.2.2 ≤ a.2.2) ∧
    ∀ x ∈ retriever_store_query t q k, ∃ r, r ∈ t.rows ∧
      x = (r.content, r.metadata, 1 - cosineDistance r.embedding q) ∧
      -1 ≤ x.2.2 ∧ x.2.2 ≤ 1 := by
  refine ⟨rfl, min_le_right _ _, ?_, ?_, ?_⟩
  · rw [retriever_store_query, find_similar_async, List.length_take]
    exact min_le_left _ _
  · rw [retriever_store_query, find_similar_async]
    refine List.Pairwise.sublist (List.take_sublist _ _) ?_
    rw [List.pairwise_map]
    have hs := pairwise_sortByKey (fun r : Row (List ℝ) => cosineDistance r.embedding q) t.rows
    refine hs.imp ?_
    intro a b hab
    dsimp only
    linarith
  · intro x hx
    rw [retriever_store_query, find_similar_async] at hx
    have hx' := List.mem_of_mem_take hx
    rw [List.mem_map] at hx'
    obtain ⟨r, hr, rfl⟩ := hx'
    rw [mem_sortByKey] at hr
    have hb := cosOf_bounds r.embedding q
    refine ⟨r, hr, rfl, ?_, ?_⟩
    · dsimp only
      unfold cosineDistance
      linarith [hb.1]
    · dsimp only
      unfold cosineDistance
      linarith [hb.2]

/-- Witness for C6: a one-row store queried with its own unit embedding at
`k = 20`, whose single result carries similarity `1 - cosine_distance`. -/
theorem c6_fanout_cap_and_ranking_witness :
    ∃ r, r ∈ (⟨[⟨1, "a", "m", [1, 0]⟩], 2⟩ : TableState (List ℝ)).rows ∧
      (("a", "m", 1 - cosineDistance [1, 0] [1, 0]) : String × String × ℝ) =
        (r.content, r.metadata, 1 - cosineDistance r.embedding [1, 0]) ∧
      -1 ≤ (("a", "m", 1 - cosineDistance [1, 0] [1, 0]) : String × String × ℝ).2.2 ∧
      (("a", "m", 1 - cosineDistance [1, 0] [1, 0]) : String × String × ℝ).2.2 ≤ 1 :=
  (c6_fanout_cap_and_ranking ⟨[⟨1, "a", "m", [1, 0]⟩], 2⟩ [1, 0] 20).2.2.2.2
    ("a", "m", 1 - cosineDistance [1, 0] [1, 0])
    (by
      rw [retriever_store_query, find_similar_async]
      simp [sortByKey, insertSorted, List.take_of_length_le])

end BotWithRag
